import Mathlib

/-!
Verification of the Go-Back-N ARQ implementation (gemini/sender.py,
gemini/receiver.py, gemini/utils.py): a shallow embedding of the protocol
constants, the CRC-8 codec, the sender window logic and the receiver
acceptance logic, together with theorems settling the specification claims.
Byte strings are modelled as lists of naturals below 256; the mutable module
state of each role is modelled as an explicit state record threaded through
pure step functions.
-/

set_option maxRecDepth 8000

namespace GBN

/-- Protocol constant from utils.py: WINDOW_SIZE = 4. -/
def WINDOW_SIZE : Nat := 4

/-- Protocol constant from utils.py: MAX_SEQ_NUM = 7 (3-bit sequence space). -/
def MAX_SEQ_NUM : Nat := 7

/-- Generator polynomial for the CRC-8, from utils.py: CRC8_POLYNOMIAL = 0x07. -/
def CRC8_POLYNOMIAL : Nat := 0x07

/-- seq_add from sender.py and receiver.py: add with wraparound modulo
MAX_SEQ_NUM + 1. -/
def seq_add (seq val : Nat) : Nat := (seq + val) % (MAX_SEQ_NUM + 1)

/-- seq_greater_equal from sender.py.  The Python source compares
abs(s1 - s2) against the float MAX_SEQ_NUM / 2 = 3.5; for integer
arguments that comparison is exactly 2 * abs(s1 - s2) <= MAX_SEQ_NUM,
which is how the guard is rendered here. -/
def seq_greater_equal (s1 s2 : Nat) : Bool :=
  if s1 = s2 then true
  else if 2 * ((s1 : Int) - (s2 : Int)).natAbs ≤ MAX_SEQ_NUM then decide (s1 > s2)
  else decide (s1 < s2)

/-- One shift step of the bitwise CRC-8 loop body in calculate_crc8
(utils.py): shift left, conditionally XOR the polynomial when the top bit
was set, and mask to 8 bits. -/
def crcStep (crc : Nat) : Nat :=
  if crc &&& 0x80 ≠ 0 then ((crc <<< 1) ^^^ CRC8_POLYNOMIAL) &&& 0xFF
  else (crc <<< 1) &&& 0xFF

/-- n iterations of crcStep (the inner for _ in range(8) loop). -/
def crcBits : Nat → Nat → Nat
  | 0, c => c
  | n + 1, c => crcBits n (crcStep c)

/-- Processing of one input byte in calculate_crc8: XOR the byte into the
register, then run eight shift steps. -/
def crcByte (crc byte : Nat) : Nat := crcBits 8 (crc ^^^ byte)

/-- calculate_crc8 from utils.py: fold crcByte over the data bytes starting
from the zero register. -/
def calculate_crc8 (data_bytes : List Nat) : Nat := data_bytes.foldl crcByte 0

/-- verify_crc8 from utils.py: recompute and compare. -/
def verify_crc8 (data_bytes : List Nat) (received_crc : Nat) : Bool :=
  calculate_crc8 data_bytes == received_crc

/-- The single-bit corruption primitive of simulate_error (utils.py):
data_bytes[byte_index] ^= (1 << bit).  Payload bytes are naturals; out-of-range
indices leave the list unchanged, as List.set does. -/
def flipBitAt (d : List Nat) (i j : Nat) : List Nat :=
  d.set i (d.getD i 0 ^^^ (1 <<< j))

/-- The Frame record from utils.py.  Payload strings are modelled by their
UTF-8 byte sequences; the optional fields mirror the Python attributes that
may hold None (ACK frames carry no data and no crc). -/
structure Frame where
  seq_num : Nat
  frame_type : String
  data : Option (List Nat)
  crc : Option Nat
deriving DecidableEq

/-- The sender's module-level mutable state in sender.py: the window base
expected_ack, the ordered dictionary send_buffer (insertion-ordered
association list with unique keys), the keys of the live timers dictionary,
and sequence_number, the next number to assign. -/
structure SenderState where
  expected_ack : Nat
  send_buffer : List (Nat × Frame)
  timers : List Nat
  sequence_number : Nat
deriving DecidableEq

/-- Key membership in the ordered-dict model (Python: k in send_buffer). -/
def bufHas (k : Nat) (d : List (Nat × Frame)) : Bool :=
  d.any (fun p => p.1 == k)

/-- Python dict assignment d[k] = v on an insertion-ordered dict: overwrite
in place when the key exists, append otherwise. -/
def dictInsert (k : Nat) (v : Frame) (d : List (Nat × Frame)) : List (Nat × Frame) :=
  if bufHas k d then d.map (fun p => if p.1 == k then (k, v) else p)
  else d ++ [(k, v)]

/-- Python dict deletion del d[k]. -/
def dictDelete (k : Nat) (d : List (Nat × Frame)) : List (Nat × Frame) :=
  d.filter (fun p => p.1 != k)

/-- start_timer from sender.py, key effect only: any existing timer for the
sequence number is cancelled and replaced, so the timer-key set gains the key
if absent (dict assignment keeps the insertion position otherwise). -/
def timerInsert (k : Nat) (t : List Nat) : List Nat :=
  if k ∈ t then t else t ++ [k]

/-- stop_timer from sender.py: when a timer exists for the key, cancel it and
delete the dictionary entry; otherwise do nothing. -/
def stop_timer (seq : Nat) (st : SenderState) : SenderState :=
  if seq ∈ st.timers then { st with timers := st.timers.filter (fun t => t != seq) }
  else st

/-- The body of the window-advance while loop in listen_for_acks
(sender.py): if the current sequence number is present in send_buffer, stop
its timer and delete its entry. -/
def clearStep (cur : Nat) (st : SenderState) : SenderState :=
  if bufHas cur st.send_buffer then
    let st1 := stop_timer cur st
    { st1 with send_buffer := dictDelete cur st1.send_buffer }
  else st

/-- The window-advance while loop of listen_for_acks: walk from the old
expected_ack towards ack_num one sequence number at a time (with wraparound),
clearing each visited entry.  The Python loop terminates whenever ack_num is
in the residue range [0, MAX_SEQ_NUM]; the fuel argument makes the
translation total and MAX_SEQ_NUM + 1 steps always suffice there. -/
def clearRange : Nat → Nat → Nat → SenderState → SenderState
  | 0, _, _, st => st
  | fuel + 1, cur, ackn, st =>
    if cur = ackn then st
    else clearRange fuel (seq_add cur 1) ackn (clearStep cur st)

/-- The sequence numbers visited by clearRange, i.e. the half-open window
interval from a to b in wraparound order. -/
def seqIntervalAux : Nat → Nat → Nat → List Nat
  | 0, _, _ => []
  | fuel + 1, a, b =>
    if a = b then []
    else a :: seqIntervalAux fuel (seq_add a 1) b

/-- Forward distance from a to b in the circular sequence space: the number
of seq_add-steps needed to reach b from a. -/
def seqDist (a b : Nat) : Nat :=
  (b + (MAX_SEQ_NUM + 1) - a) % (MAX_SEQ_NUM + 1)

/-- The closing block of the forward-progress branch in listen_for_acks
(sender.py, lines 191-194): when the send buffer has emptied and timers
remain, stop every remaining timer. -/
def process_ack_cleanup (st : SenderState) : SenderState :=
  if st.send_buffer.isEmpty && !st.timers.isEmpty then { st with timers := [] }
  else st

/-- The ACK-processing critical section of listen_for_acks (sender.py,
lines 174-200): on forward progress clear the window interval, advance the
base, and run the empty-buffer timer cleanup; otherwise leave the state
untouched. -/
def process_ack (ack_num : Nat) (st : SenderState) : SenderState :=
  if seq_greater_equal ack_num st.expected_ack && ack_num != st.expected_ack then
    process_ack_cleanup
      { clearRange (MAX_SEQ_NUM + 1) st.expected_ack ack_num st with
        expected_ack := ack_num }
  else st

/-- The CRC recomputation applied to a frame before retransmission
(retransmit_from in sender.py): only DATA frames with a truthy (non-None,
non-empty) payload get a fresh crc over the payload currently held. -/
def recompute_crc (f : Frame) : Frame :=
  match f.data with
  | some d =>
    if f.frame_type == "DATA" && d != [] then { f with crc := some (calculate_crc8 d) }
    else f
  | none => f

/-- retransmit_from in sender.py: collect every buffered frame whose key
satisfies seq_greater_equal against the timed-out number, then for each one
cancel its timer, recompute its crc in place (the buffered object is
aliased), hand it to send_frame, and restart its timer.  Returns the list of
frames handed to the send path together with the updated state. -/
def retransmit_from (start_seq_num : Nat) (st : SenderState) : List Frame × SenderState :=
  let sel := st.send_buffer.filter (fun p => seq_greater_equal p.1 start_seq_num)
  let sent := sel.map (fun p => recompute_crc p.2)
  let newBuf := st.send_buffer.map
    (fun p => if seq_greater_equal p.1 start_seq_num then (p.1, recompute_crc p.2) else p)
  let newTimers := sel.foldl (fun t p => timerInsert p.1 t) st.timers
  (sent, { st with send_buffer := newBuf, timers := newTimers })

/-- The window-filling inner while loop of main_sender (sender.py, lines
268-285): while the buffer holds fewer than WINDOW_SIZE frames and chunks
remain, build a DATA frame for the next chunk, insert it, start its timer and
advance sequence_number. -/
def fillWindow : SenderState → List (List Nat) → SenderState
  | st, [] => st
  | st, chunk :: rest =>
    if st.send_buffer.length < WINDOW_SIZE then
      fillWindow
        { st with
          send_buffer :=
            dictInsert st.sequence_number
              ⟨st.sequence_number, "DATA", some chunk, some (calculate_crc8 chunk)⟩
              st.send_buffer,
          timers := timerInsert st.sequence_number st.timers,
          sequence_number := seq_add st.sequence_number 1 }
        rest
    else st

/-- The receiver's state in receiver.py: expected_seq_num, the
duplicate-suppression marker last_accepted_seq (None before the first
acceptance), and received_message, the ordered list of accepted payloads. -/
structure ReceiverState where
  expected_seq_num : Nat
  last_accepted_seq : Option Nat
  received_message : List (List Nat)
deriving DecidableEq

/-- Outcome of handling one decoded frame in the receiver loop: either an
updated state together with the list of ACK numbers handed to send_ack, or a
session-fatal exception (caught by the generic handler, which clears the
running flag). -/
inductive RStep where
  | ok (st : ReceiverState) (acks : List Nat)
  | fatal
deriving DecidableEq

/-- The CRC comparison performed by the receiver on a frame whose crc field
may be None: Python's equality between int and None is always False, so an
absent crc fails verification. -/
def crcCheck (d : List Nat) (crc : Option Nat) : Bool :=
  match crc with
  | some c => verify_crc8 d c
  | none => false

/-- The frame-handling body of main_receiver (receiver.py, lines 87-114).
A DATA frame with data = None crashes on data.encode (AttributeError reaches
the generic except clause, ending the session).  Otherwise: CRC failure means
discard and re-ACK; an in-order frame is appended unless it is a duplicate
delivery of the currently expected slot, and either way the window advances
and the new expected number is ACKed; an out-of-order frame is discarded with
a re-ACK.  Non-DATA frames are logged and ignored. -/
def receiver_step (st : ReceiverState) (f : Frame) : RStep :=
  if f.frame_type == "DATA" then
    match f.data with
    | none => RStep.fatal
    | some d =>
      if !crcCheck d f.crc then RStep.ok st [st.expected_seq_num]
      else if f.seq_num == st.expected_seq_num then
        if st.last_accepted_seq != some st.expected_seq_num then
          RStep.ok
            ⟨seq_add st.expected_seq_num 1, some st.expected_seq_num,
              st.received_message ++ [d]⟩
            [seq_add st.expected_seq_num 1]
        else
          RStep.ok
            ⟨seq_add st.expected_seq_num 1, st.last_accepted_seq, st.received_message⟩
            [seq_add st.expected_seq_num 1]
      else RStep.ok st [st.expected_seq_num]
  else RStep.ok st []

/-- The receiver loop over a list of decoded frames: a fatal step freezes the
state (running becomes False and no further frame is processed). -/
def run_receiver : ReceiverState → List Frame → ReceiverState
  | st, [] => st
  | st, f :: fs =>
    match receiver_step st f with
    | RStep.ok st2 _ => run_receiver st2 fs
    | RStep.fatal => st

/-- The receiver's initial state (expected_seq_num = 0,
last_accepted_seq = None, received_message = []). -/
def initReceiver : ReceiverState := ⟨0, none, []⟩

/-- An incoming wire message as seen by Frame.from_json (utils.py): either
not valid JSON at all, or a JSON object whose recognized fields may each be
absent.  Payload strings are modelled by their byte sequences. -/
inductive JsonMsg where
  | invalid
  | obj (seq : Option Nat) (ftype : Option String) (data : Option (List Nat)) (crc : Option Nat)
deriving DecidableEq

/-- Outcome of Frame.from_json: a frame, a json.JSONDecodeError raised by
json.loads, or a KeyError raised by the subscript lookups of the required
fields seq_num and frame_type (the optional fields use .get and tolerate
absence). -/
inductive DecodeResult where
  | ok (f : Frame)
  | jsonError
  | keyError
deriving DecidableEq

/-- Frame.from_json from utils.py, lines 39-45. -/
def from_json : JsonMsg → DecodeResult
  | JsonMsg.invalid => DecodeResult.jsonError
  | JsonMsg.obj seq ftype data crc =>
    match seq with
    | none => DecodeResult.keyError
    | some s =>
      match ftype with
      | none => DecodeResult.keyError
      | some t => DecodeResult.ok ⟨s, t, data, crc⟩

/-- One receiver-loop iteration at the message level (receiver.py, lines
85-126): decode, dispatch, and map each exception to its handler.  A
json.JSONDecodeError is printed and the loop continues; a KeyError escaping
from from_json falls through to the generic except clause, which sets
running = False; a fatal frame-handling step does the same.  Returns the new
state, the running flag, and the ACKs sent. -/
def receiver_handle_msg (st : ReceiverState) (running : Bool) (m : JsonMsg) :
    ReceiverState × Bool × List Nat :=
  match from_json m with
  | DecodeResult.jsonError => (st, running, [])
  | DecodeResult.keyError => (st, false, [])
  | DecodeResult.ok f =>
    match receiver_step st f with
    | RStep.ok st2 acks => (st2, running, acks)
    | RStep.fatal => (st, false, [])

/-- One iteration of the sender's listen_for_acks at the message level
(sender.py, lines 158-220): same exception mapping as the receiver loop; an
ACK frame enters the critical section, any other frame type is logged and
ignored. -/
def listen_step (st : SenderState) (running : Bool) (m : JsonMsg) :
    SenderState × Bool :=
  match from_json m with
  | DecodeResult.jsonError => (st, running)
  | DecodeResult.keyError => (st, false)
  | DecodeResult.ok f =>
    if f.frame_type == "ACK" then (process_ack f.seq_num st, running)
    else (st, running)

/-- Is b a UTF-8 continuation byte. -/
def isCont (b : Nat) : Bool := 0x80 ≤ b && b ≤ 0xBF

/-- Fuel-driven scanner behind utf8RoundTripIgnore.  Each step consumes at
least one byte and one unit of fuel, so fuel equal to the input length always
suffices; the structural recursion keeps the function kernel-computable. -/
def utf8Aux : Nat → List Nat → List Nat
  | 0, _ => []
  | _, [] => []
  | fuel + 1, b :: rest =>
    if b ≤ 0x7F then b :: utf8Aux fuel rest
    else if 0xC2 ≤ b && b ≤ 0xDF then
      match rest with
      | c1 :: rest1 =>
        if isCont c1 then b :: c1 :: utf8Aux fuel rest1
        else utf8Aux fuel (c1 :: rest1)
      | [] => []
    else if 0xE0 ≤ b && b ≤ 0xEF then
      let lo1 := if b = 0xE0 then 0xA0 else 0x80
      let hi1 := if b = 0xED then 0x9F else 0xBF
      match rest with
      | c1 :: rest1 =>
        if lo1 ≤ c1 && c1 ≤ hi1 then
          match rest1 with
          | c2 :: rest2 =>
            if isCont c2 then b :: c1 :: c2 :: utf8Aux fuel rest2
            else utf8Aux fuel (c2 :: rest2)
          | [] => []
        else utf8Aux fuel (c1 :: rest1)
      | [] => []
    else if 0xF0 ≤ b && b ≤ 0xF4 then
      let lo1 := if b = 0xF0 then 0x90 else 0x80
      let hi1 := if b = 0xF4 then 0x8F else 0xBF
      match rest with
      | c1 :: rest1 =>
        if lo1 ≤ c1 && c1 ≤ hi1 then
          match rest1 with
          | c2 :: rest2 =>
            if isCont c2 then
              match rest2 with
              | c3 :: rest3 =>
                if isCont c3 then b :: c1 :: c2 :: c3 :: utf8Aux fuel rest3
                else utf8Aux fuel (c3 :: rest3)
              | [] => []
            else utf8Aux fuel (c2 :: rest2)
          | [] => []
        else utf8Aux fuel (c1 :: rest1)
      | [] => []
    else utf8Aux fuel rest

/-- Models bytes.decode('utf-8', errors='ignore') followed by
str.encode('utf-8'), as performed on the corrupted payload by simulate_error
(utils.py, line 100) and by the receiver's re-encoding of the delivered
string: every maximal well-formed UTF-8 sequence is kept verbatim (valid
sequences re-encode to themselves), and the bytes of each ill-formed maximal
subpart are dropped. -/
def utf8RoundTripIgnore (l : List Nat) : List Nat := utf8Aux l.length l

/-- The payload transformation performed by simulate_error (utils.py, lines
88-102) when the corruption branch is taken with the given pseudo-random
byte index and bit position: flip the chosen bit of the UTF-8 bytes, then
store the result of decode('utf-8', errors='ignore') back into frame.data
(whose downstream byte view is its re-encoding).  The frame's crc field is
left untouched by the caller (send_frame, sender.py lines 29-36). -/
def simulate_error_payload (data : List Nat) (byte_index bit : Nat) : List Nat :=
  utf8RoundTripIgnore (flipBitAt data byte_index bit)

/-- C2: for all a, b in [0, MAX_SEQ_NUM], seq_greater_equal returns true when
a = b; when |a - b| is at most MAX_SEQ_NUM / 2 it returns the plain integer
comparison a > b; otherwise (the wraparound case) it returns the inverted
comparison a < b. -/
theorem seq_ge_matches_integer_order (a b : Nat)
    (ha : a ≤ MAX_SEQ_NUM) (hb : b ≤ MAX_SEQ_NUM) :
    (a = b → seq_greater_equal a b = true) ∧
    (a ≠ b → ((a : Int) - (b : Int)).natAbs ≤ MAX_SEQ_NUM / 2 →
      seq_greater_equal a b = decide (a > b)) ∧
    (a ≠ b → ¬ ((a : Int) - (b : Int)).natAbs ≤ MAX_SEQ_NUM / 2 →
      seq_greater_equal a b = decide (a < b)) := by
  have H : ∀ x, x < MAX_SEQ_NUM + 1 → ∀ y, y < MAX_SEQ_NUM + 1 →
      (x = y → seq_greater_equal x y = true) ∧
      (x ≠ y → ((x : Int) - (y : Int)).natAbs ≤ MAX_SEQ_NUM / 2 →
        seq_greater_equal x y = decide (x > y)) ∧
      (x ≠ y → ¬ ((x : Int) - (y : Int)).natAbs ≤ MAX_SEQ_NUM / 2 →
        seq_greater_equal x y = decide (x < y)) := by decide
  exact H a (Nat.lt_succ_of_le ha) b (Nat.lt_succ_of_le hb)

theorem seq_ge_matches_integer_order_witness :
    seq_greater_equal 1 6 = decide ((1 : Nat) < 6) :=
  (seq_ge_matches_integer_order 1 6 (by decide) (by decide)).2.2
    (by decide) (by decide)

/-- Explicit inverse of crcStep on 8-bit registers: multiplication by x
modulo the generator polynomial is invertible because the polynomial has a
nonzero constant term. -/
def crcStepInv (s : Nat) : Nat :=
  if s &&& 1 = 1 then ((s ^^^ CRC8_POLYNOMIAL) >>> 1) ||| 0x80 else s >>> 1

theorem xor_lt_256 {x y : Nat} (hx : x < 256) (hy : y < 256) : x ^^^ y < 256 := by
  have h8 : (256 : Nat) = 2 ^ 8 := by norm_num
  rw [h8] at hx hy ⊢
  exact Nat.xor_lt_two_pow hx hy

theorem crcStep_lt (r : Nat) : crcStep r < 256 := by
  unfold crcStep
  split <;> exact Nat.lt_succ_of_le Nat.and_le_right

theorem crcStepInv_step : ∀ r, r < 256 → crcStepInv (crcStep r) = r := by decide

theorem crcBits_lt : ∀ n r, r < 256 → crcBits n r < 256 := by
  intro n
  induction n with
  | zero => intro r hr; exact hr
  | succ k ih => intro r _; exact ih (crcStep r) (crcStep_lt r)

theorem crcByte_lt (r b : Nat) : crcByte r b < 256 := by
  show crcBits 7 (crcStep (r ^^^ b)) < 256
  exact crcBits_lt 7 _ (crcStep_lt _)

theorem crcBits_inj : ∀ n x, x < 256 → ∀ y, y < 256 →
    crcBits n x = crcBits n y → x = y := by
  intro n
  induction n with
  | zero => intro x _ y _ h; exact h
  | succ k ih =>
    intro x hx y hy h
    have hstep : crcStep x = crcStep y :=
      ih (crcStep x) (crcStep_lt x) (crcStep y) (crcStep_lt y) h
    calc x = crcStepInv (crcStep x) := (crcStepInv_step x hx).symm
      _ = crcStepInv (crcStep y) := by rw [hstep]
      _ = y := crcStepInv_step y hy

theorem crcByte_inj (b : Nat) (hb : b < 256) (x : Nat) (hx : x < 256)
    (y : Nat) (hy : y < 256) (h : crcByte x b = crcByte y b) : x = y := by
  have hxb : x ^^^ b < 256 := xor_lt_256 hx hb
  have hyb : y ^^^ b < 256 := xor_lt_256 hy hb
  have h2 : x ^^^ b = y ^^^ b := crcBits_inj 8 (x ^^^ b) hxb (y ^^^ b) hyb h
  calc x = x ^^^ b ^^^ b := (Nat.xor_cancel_right b x).symm
    _ = y ^^^ b ^^^ b := by rw [h2]
    _ = y := Nat.xor_cancel_right b y

theorem foldl_crcByte_inj : ∀ l : List Nat, (∀ b ∈ l, b < 256) →
    ∀ x, x < 256 → ∀ y, y < 256 →
    l.foldl crcByte x = l.foldl crcByte y → x = y := by
  intro l
  induction l with
  | nil => intro _ x _ y _ h; exact h
  | cons b t ih =>
    intro hb x hx y hy h
    have hbyte : crcByte x b = crcByte y b := by
      refine ih (fun c hc => hb c (List.mem_cons_of_mem b hc))
        (crcByte x b) (crcByte_lt x b) (crcByte y b) (crcByte_lt y b) ?_
      simpa [List.foldl_cons] using h
    exact crcByte_inj b (hb b (List.mem_cons_self b t)) x hx y hy hbyte

theorem foldl_crcByte_lt : ∀ l : List Nat, ∀ x, x < 256 →
    l.foldl crcByte x < 256 := by
  intro l
  induction l with
  | nil => intro x hx; exact hx
  | cons b t ih => intro x _; exact ih (crcByte x b) (crcByte_lt x b)

/-- C4: verify_crc8 accepts the crc computed by calculate_crc8 on unmodified
bytes, and rejects after any single-bit flip of any byte: the bitwise CRC-8
with generator polynomial 0x07, zero initial register and MSB-first
processing changes its value whenever exactly one input bit changes. -/
theorem crc8_detects_single_bit_flip (d : List Nat) (hb : ∀ b ∈ d, b < 256)
    (i j : Nat) (hi : i < d.length) (hj : j < 8) :
    verify_crc8 d (calculate_crc8 d) = true ∧
    verify_crc8 (flipBitAt d i j) (calculate_crc8 d) = false := by
  constructor
  · simp [verify_crc8]
  · have hm0 : (1 <<< j) ≠ 0 := by
      rw [Nat.one_shiftLeft]
      exact (Nat.two_pow_pos j).ne'
    have hmlt : (1 <<< j) < 256 := by
      rw [Nat.one_shiftLeft]
      calc 2 ^ j ≤ 2 ^ 7 := Nat.pow_le_pow_right (by omega) (by omega)
        _ < 256 := by omega
    have hgetD : d.getD i 0 = d[i] := List.getD_eq_getElem d 0 hi
    have hflip : flipBitAt d i j = d.take i ++ (d[i] ^^^ (1 <<< j)) :: d.drop (i + 1) := by
      rw [flipBitAt, hgetD]
      exact List.set_eq_take_cons_drop _ hi
    have hd : d = d.take i ++ d[i] :: d.drop (i + 1) := by
      conv_lhs => rw [← List.take_append_drop i d, List.drop_eq_getElem_cons hi]
    have hne : calculate_crc8 (flipBitAt d i j) ≠ calculate_crc8 d := by
      intro heq
      rw [hflip] at heq
      conv_rhs at heq => rw [calculate_crc8, hd]
      rw [calculate_crc8, List.foldl_append, List.foldl_append,
        List.foldl_cons, List.foldl_cons] at heq
      have hr0 : (d.take i).foldl crcByte 0 < 256 :=
        foldl_crcByte_lt _ 0 (by omega)
      have hdi : d[i] < 256 := hb d[i] (d.getElem_mem hi)
      have hdrop : ∀ b ∈ d.drop (i + 1), b < 256 := by
        intro b hbm
        exact hb b (List.mem_of_mem_drop hbm)
      have hreg : crcByte ((d.take i).foldl crcByte 0) (d[i] ^^^ (1 <<< j)) =
          crcByte ((d.take i).foldl crcByte 0) d[i] :=
        foldl_crcByte_inj (d.drop (i + 1)) hdrop _ (crcByte_lt _ _) _ (crcByte_lt _ _) heq
      have hxor : (d.take i).foldl crcByte 0 ^^^ (d[i] ^^^ (1 <<< j)) =
          (d.take i).foldl crcByte 0 ^^^ d[i] := by
        refine crcBits_inj 8 _ ?_ _ ?_ hreg
        · exact xor_lt_256 hr0 (xor_lt_256 hdi hmlt)
        · exact xor_lt_256 hr0 hdi
      have hxor2 : d[i] ^^^ (1 <<< j) = d[i] := by
        calc d[i] ^^^ (1 <<< j)
            = (d.take i).foldl crcByte 0 ^^^
              ((d.take i).foldl crcByte 0 ^^^ (d[i] ^^^ (1 <<< j))) :=
              (Nat.xor_cancel_left _ _).symm
          _ = (d.take i).foldl crcByte 0 ^^^
              ((d.take i).foldl crcByte 0 ^^^ d[i]) := by rw [hxor]
          _ = d[i] := Nat.xor_cancel_left _ _
      have : (1 <<< j) = 0 := by
        calc (1 <<< j) = d[i] ^^^ (d[i] ^^^ (1 <<< j)) := (Nat.xor_cancel_left _ _).symm
          _ = d[i] ^^^ d[i] := by rw [hxor2]
          _ = 0 := Nat.xor_self _
      exact hm0 this
    simp only [verify_crc8]
    exact beq_eq_false_iff_ne.mpr hne

theorem crc8_detects_single_bit_flip_witness :
    verify_crc8 [65] (calculate_crc8 [65]) = true ∧
    verify_crc8 (flipBitAt [65] 0 0) (calculate_crc8 [65]) = false :=
  crc8_detects_single_bit_flip [65] (by decide) 0 0 (by decide) (by decide)

/-- C9 is a code bug: for the two-NUL payload with bit 7 of byte 0 flipped,
decode('utf-8', errors='ignore') drops the now-invalid byte 0x80, so the
payload held by the frame afterwards is a one-byte deletion of the original,
not a single-bit flip, and its bytes again check out against the retained crc
(calculate_crc8 of one NUL and of two NULs are both 0), so the corruption is
not detectable downstream — contradicting both the claim and the source's own
comment that the receiver's CRC must detect the introduced error. -/
theorem simulate_error_undetectable_corruption :
    simulate_error_payload [0, 0] 0 7 = [0] ∧
    simulate_error_payload [0, 0] 0 7 ≠ flipBitAt [0, 0] 0 7 ∧
    verify_crc8 (simulate_error_payload [0, 0] 0 7) (calculate_crc8 [0, 0]) = true := by
  decide

/-- C8 counterexample: the wire message holding the well-formed JSON object
\x7b"frame_type": "DATA"\x7d fails to decode (Frame.from_json raises
KeyError on the missing seq_num), yet neither session drops it and carries
on: the KeyError bypasses the json.JSONDecodeError handler, reaches the
generic except clause of both loops, and clears the running flag, so the
decode failure terminates the session. -/
theorem decode_missing_field_kills_session :
    from_json (JsonMsg.obj none (some "DATA") none none) = DecodeResult.keyError ∧
    (receiver_handle_msg initReceiver true
      (JsonMsg.obj none (some "DATA") none none)).2.1 = false ∧
    (listen_step ⟨0, [], [], 0⟩ true
      (JsonMsg.obj none (some "DATA") none none)).2 = false := by
  decide

/-- C8 amended: a message that is not valid JSON raises json.JSONDecodeError,
which both the receiver loop and the sender's ACK listener catch; the message
is dropped and the session continues unchanged.  A message that is valid JSON
but lacks seq_num or frame_type raises KeyError inside Frame.from_json, which
only the generic exception handler catches: it clears the running flag and
the session terminates. -/
theorem decode_failure_handling (rst : ReceiverState) (sst : SenderState)
    (running : Bool) (m : JsonMsg) :
    (from_json m = DecodeResult.jsonError →
      receiver_handle_msg rst running m = (rst, running, []) ∧
      listen_step sst running m = (sst, running)) ∧
    (from_json m = DecodeResult.keyError →
      (receiver_handle_msg rst running m).2.1 = false ∧
      (listen_step sst running m).2 = false) := by
  constructor
  · intro h
    constructor
    · simp [receiver_handle_msg, h]
    · simp [listen_step, h]
  · intro h
    constructor
    · simp [receiver_handle_msg, h]
    · simp [listen_step, h]

theorem decode_failure_handling_witness :
    receiver_handle_msg initReceiver true JsonMsg.invalid = (initReceiver, true, []) :=
  ((decode_failure_handling initReceiver ⟨0, [], [], 0⟩ true JsonMsg.invalid).1 rfl).1

/-- C6: a DATA frame whose CRC verification fails (including a missing crc
field) is discarded with no state change — expected_seq_num,
last_accepted_seq and the assembled output are untouched — and exactly one
ACK carrying the unchanged expected_seq_num is handed to send_ack. -/
theorem crc_mismatch_discard_reack (st : ReceiverState) (f : Frame)
    (d : List Nat) (htype : f.frame_type = "DATA") (hdata : f.data = some d)
    (hcrc : ∀ c, f.crc = some c → verify_crc8 d c = false) :
    receiver_step st f = RStep.ok st [st.expected_seq_num] := by
  have hchk : crcCheck d f.crc = false := by
    cases hc : f.crc with
    | none => rfl
    | some c => simpa [crcCheck] using hcrc c hc
  simp [receiver_step, htype, hdata, hchk]

theorem crc_mismatch_discard_reack_witness :
    receiver_step initReceiver ⟨0, "DATA", some [65], some 0⟩ =
      RStep.ok initReceiver [0] :=
  crc_mismatch_discard_reack initReceiver ⟨0, "DATA", some [65], some 0⟩ [65]
    rfl rfl (by intro c hc; injection hc with h; subst h; decide)

theorem receiver_step_message_growth (st0 : ReceiverState) (g : Frame)
    (st1 : ReceiverState) (acks : List Nat)
    (h : receiver_step st0 g = RStep.ok st1 acks) :
    st1.received_message = st0.received_message ∨
    ∃ e, g.data = some e ∧
      st1.received_message = st0.received_message ++ [e] ∧
      g.seq_num = st0.expected_seq_num ∧ g.crc = some (calculate_crc8 e) ∧
      st0.last_accepted_seq ≠ some st0.expected_seq_num := by
  by_cases ht : g.frame_type = "DATA"
  · cases hd : g.data with
    | none => simp [receiver_step, ht, hd] at h
    | some d =>
      by_cases hc : crcCheck d g.crc = true
      · by_cases hs : g.seq_num = st0.expected_seq_num
        · by_cases hl : st0.last_accepted_seq = some st0.expected_seq_num
          · simp [receiver_step, ht, hd, hc, hs, hl] at h
            left
            rw [← h.1]
          · simp [receiver_step, ht, hd, hc, hs, hl] at h
            right
            refine ⟨d, rfl, ?_, hs, ?_, hl⟩
            · rw [← h.1]
            · cases hcrc : g.crc with
              | none => rw [hcrc] at hc; exact absurd hc (by simp [crcCheck])
              | some c =>
                rw [hcrc] at hc
                have h2 : calculate_crc8 d = c := by
                  simpa [crcCheck, verify_crc8] using hc
                rw [h2]
        · simp [receiver_step, ht, hd, hc, hs] at h
          left
          rw [← h.1]
      · simp [receiver_step, ht, hd, hc] at h
        left
        rw [← h.1]
  · simp [receiver_step, ht] at h
    left
    rw [← h.1]

theorem run_receiver_message_extends : ∀ (fs : List Frame) (st0 : ReceiverState),
    ∃ tail, (run_receiver st0 fs).received_message =
      st0.received_message ++ tail := by
  intro fs
  induction fs with
  | nil => exact fun st0 => ⟨[], by simp [run_receiver]⟩
  | cons f t ih =>
    intro st0
    cases hstep : receiver_step st0 f with
    | fatal => exact ⟨[], by simp [run_receiver, hstep]⟩
    | ok st2 acks =>
      obtain ⟨tail2, ht2⟩ := ih st2
      rcases receiver_step_message_growth st0 f st2 acks hstep with
        hsame | ⟨e, _, hgrow, _, _, _⟩
      · exact ⟨tail2, by simp [run_receiver, hstep, ht2, hsame]⟩
      · exact ⟨[e] ++ tail2, by simp [run_receiver, hstep, ht2, hgrow]⟩

/-- C3: a DATA frame whose CRC verifies and whose seq_num equals
expected_seq_num is ACKed once with the advanced number, the window advances
by exactly one (mod MAX_SEQ_NUM + 1), and the payload is appended exactly
when last_accepted_seq differs from expected_seq_num, in which case
last_accepted_seq is set to it; moreover every step appends at most one
payload — and only one whose frame was verified in order and not
duplicate-suppressed — so over any run the assembled output only ever grows
at the end, never reordering or re-appending an accepted payload. -/
theorem receiver_in_order_accept_spec (st : ReceiverState) (f : Frame)
    (d : List Nat) (htype : f.frame_type = "DATA") (hdata : f.data = some d)
    (hcrc : f.crc = some (calculate_crc8 d))
    (hseq : f.seq_num = st.expected_seq_num) :
    (∃ st2,
      receiver_step st f = RStep.ok st2 [seq_add st.expected_seq_num 1] ∧
      st2.expected_seq_num = seq_add st.expected_seq_num 1 ∧
      (st2.received_message = st.received_message ++ [d] ↔
        st.last_accepted_seq ≠ some st.expected_seq_num) ∧
      (st.last_accepted_seq ≠ some st.expected_seq_num →
        st2.last_accepted_seq = some st.expected_seq_num) ∧
      (st.last_accepted_seq = some st.expected_seq_num →
        st2.received_message = st.received_message ∧
        st2.last_accepted_seq = st.last_accepted_seq)) ∧
    (∀ st0 g st1 acks, receiver_step st0 g = RStep.ok st1 acks →
      st1.received_message = st0.received_message ∨
      ∃ e, g.data = some e ∧
        st1.received_message = st0.received_message ++ [e] ∧
        g.seq_num = st0.expected_seq_num ∧ g.crc = some (calculate_crc8 e) ∧
        st0.last_accepted_seq ≠ some st0.expected_seq_num) ∧
    (∀ st0 fs, ∃ tail, (run_receiver st0 fs).received_message =
      st0.received_message ++ tail) := by
  refine ⟨?_, receiver_step_message_growth, fun st0 fs => run_receiver_message_extends fs st0⟩
  have hchk : crcCheck d f.crc = true := by simp [hcrc, crcCheck, verify_crc8]
  by_cases hl : st.last_accepted_seq = some st.expected_seq_num
  · refine ⟨⟨seq_add st.expected_seq_num 1, st.last_accepted_seq,
      st.received_message⟩, ?_, rfl, ?_, ?_, ?_⟩
    · simp [receiver_step, htype, hdata, hchk, hseq, hl]
    · simp [hl]
    · intro hne; exact absurd hl hne
    · exact fun _ => ⟨rfl, rfl⟩
  · refine ⟨⟨seq_add st.expected_seq_num 1, some st.expected_seq_num,
      st.received_message ++ [d]⟩, ?_, rfl, ?_, fun _ => rfl, fun heq => absurd heq hl⟩
    · simp [receiver_step, htype, hdata, hchk, hseq, hl]
    · simp [hl]

theorem receiver_in_order_accept_spec_witness :
    receiver_step initReceiver ⟨0, "DATA", some [65], some (calculate_crc8 [65])⟩ =
      RStep.ok ⟨seq_add 0 1, some 0, [[65]]⟩ [seq_add 0 1] := by
  obtain ⟨⟨st2, h1, h2, h3, h4, h5⟩, _, _⟩ :=
    receiver_in_order_accept_spec initReceiver
      ⟨0, "DATA", some [65], some (calculate_crc8 [65])⟩ [65] rfl rfl rfl rfl
  obtain ⟨e2, l2, m2⟩ := st2
  have he : e2 = seq_add 0 1 := by simpa [initReceiver] using h2
  have hl : l2 = some 0 := h4 (by decide)
  have hm : m2 = [[65]] := h3.mpr (by decide)
  subst he hl hm
  exact h1

/-- The receiver-loop invariant behind C10: the expected number stays inside
the sequence space, and once last_accepted_seq is set it always equals
expected_seq_num - 1 (mod MAX_SEQ_NUM + 1), written as adding MAX_SEQ_NUM. -/
def RInv (st : ReceiverState) : Prop :=
  st.expected_seq_num ≤ MAX_SEQ_NUM ∧
  ∀ l, st.last_accepted_seq = some l →
    l = seq_add st.expected_seq_num MAX_SEQ_NUM

/-- The duplicate-suppression branch of main_receiver (receiver.py, line
104): a verified in-order DATA frame whose slot was already accepted. -/
def dupBranch (st : ReceiverState) (f : Frame) : Prop :=
  f.frame_type = "DATA" ∧
  (∃ d, f.data = some d ∧ crcCheck d f.crc = true) ∧
  f.seq_num = st.expected_seq_num ∧
  st.last_accepted_seq = some st.expected_seq_num

theorem receiver_step_preserves_RInv (st : ReceiverState) (f : Frame)
    (st2 : ReceiverState) (acks : List Nat) (hinv : RInv st)
    (h : receiver_step st f = RStep.ok st2 acks) : RInv st2 := by
  obtain ⟨hb, hlast⟩ := hinv
  by_cases ht : f.frame_type = "DATA"
  · cases hd : f.data with
    | none => simp [receiver_step, ht, hd] at h
    | some d =>
      by_cases hc : crcCheck d f.crc = true
      · by_cases hs : f.seq_num = st.expected_seq_num
        · by_cases hl : st.last_accepted_seq = some st.expected_seq_num
          · simp [receiver_step, ht, hd, hc, hs, hl] at h
            rw [← h.1]
            refine ⟨?_, ?_⟩
            · show seq_add st.expected_seq_num 1 ≤ MAX_SEQ_NUM
              simp only [seq_add, MAX_SEQ_NUM]
              omega
            · intro l hl2
              have hl3 : some st.expected_seq_num = some l := hl2
              have hle : l = st.expected_seq_num := by injection hl3.symm
              show l = seq_add (seq_add st.expected_seq_num 1) MAX_SEQ_NUM
              simp only [seq_add, MAX_SEQ_NUM] at hb ⊢
              omega
          · simp [receiver_step, ht, hd, hc, hs, hl] at h
            rw [← h.1]
            refine ⟨?_, ?_⟩
            · show seq_add st.expected_seq_num 1 ≤ MAX_SEQ_NUM
              simp only [seq_add, MAX_SEQ_NUM]
              omega
            · intro l hl2
              have hl3 : some st.expected_seq_num = some l := hl2
              have hle : l = st.expected_seq_num := by injection hl3.symm
              show l = seq_add (seq_add st.expected_seq_num 1) MAX_SEQ_NUM
              simp only [seq_add, MAX_SEQ_NUM] at hb ⊢
              omega
        · simp [receiver_step, ht, hd, hc, hs] at h
          rw [← h.1]
          exact ⟨hb, hlast⟩
      · simp [receiver_step, ht, hd, hc] at h
        rw [← h.1]
        exact ⟨hb, hlast⟩
  · simp [receiver_step, ht] at h
    rw [← h.1]
    exact ⟨hb, hlast⟩

theorem run_receiver_preserves_RInv : ∀ (fs : List Frame) (st : ReceiverState),
    RInv st → RInv (run_receiver st fs) := by
  intro fs
  induction fs with
  | nil => intro st h; simpa [run_receiver] using h
  | cons f t ih =>
    intro st h
    cases hstep : receiver_step st f with
    | fatal => simpa [run_receiver, hstep] using h
    | ok st2 acks =>
      have h2 := receiver_step_preserves_RInv st f st2 acks h hstep
      simpa [run_receiver, hstep] using ih st2 h2

/-- C10: the receiver-loop invariant — once the first in-order frame has been
accepted, last_accepted_seq always equals expected_seq_num - 1 (mod
MAX_SEQ_NUM + 1) when the next frame's seq_num is checked; the invariant
holds initially, is preserved by every non-fatal step, and holds along every
run from the initial state; consequently the duplicate-suppression branch is
unreachable in every invariant state (in particular after the first
acceptance), and a redelivered copy of the frame just accepted (seq_num equal
to last_accepted_seq) is handled by the out-of-order discard-and-reack
branch, leaving the state unchanged. -/
theorem last_accepted_tracks_expected :
    RInv initReceiver ∧
    (∀ st f st2 acks, RInv st → receiver_step st f = RStep.ok st2 acks →
      RInv st2) ∧
    (∀ fs, RInv (run_receiver initReceiver fs)) ∧
    (∀ st f, RInv st → ¬ dupBranch st f) ∧
    (∀ st f l d, RInv st → st.last_accepted_seq = some l →
      f.frame_type = "DATA" → f.data = some d → crcCheck d f.crc = true →
      f.seq_num = l →
      receiver_step st f = RStep.ok st [st.expected_seq_num]) := by
  refine ⟨?_, receiver_step_preserves_RInv, ?_, ?_, ?_⟩
  · exact ⟨by simp [initReceiver, MAX_SEQ_NUM], by simp [initReceiver]⟩
  · intro fs
    exact run_receiver_preserves_RInv fs initReceiver
      ⟨by simp [initReceiver, MAX_SEQ_NUM], by simp [initReceiver]⟩
  · rintro st f ⟨hb, hlast⟩ ⟨_, _, _, hdup⟩
    have h2 := hlast st.expected_seq_num hdup
    simp only [seq_add, MAX_SEQ_NUM] at h2 hb
    omega
  · intro st f l d hinv hl ht hd hc hs
    obtain ⟨hb, hlast⟩ := hinv
    have h2 := hlast l hl
    have hne : f.seq_num ≠ st.expected_seq_num := by
      rw [hs, h2]
      simp only [seq_add, MAX_SEQ_NUM] at hb ⊢
      omega
    simp [receiver_step, ht, hd, hc, hne]

theorem last_accepted_tracks_expected_witness :
    receiver_step ⟨1, some 0, [[65]]⟩
      ⟨0, "DATA", some [65], some (calculate_crc8 [65])⟩ =
      RStep.ok ⟨1, some 0, [[65]]⟩ [1] :=
  last_accepted_tracks_expected.2.2.2.2 ⟨1, some 0, [[65]]⟩
    ⟨0, "DATA", some [65], some (calculate_crc8 [65])⟩ 0 [65]
    ⟨by decide, fun l hl => by injection hl with h2; subst h2; decide⟩
    rfl rfl rfl (by decide) rfl

theorem stop_timer_buffer (s : Nat) (st : SenderState) :
    (stop_timer s st).send_buffer = st.send_buffer := by
  unfold stop_timer
  split <;> rfl

theorem clearStep_length (c : Nat) (st : SenderState) :
    (clearStep c st).send_buffer.length ≤ st.send_buffer.length := by
  unfold clearStep
  split
  · show (dictDelete c (stop_timer c st).send_buffer).length ≤ _
    rw [stop_timer_buffer]
    exact List.length_filter_le _ _
  · exact Nat.le_refl _

theorem clearRange_length : ∀ (fuel cur a : Nat) (st : SenderState),
    (clearRange fuel cur a st).send_buffer.length ≤ st.send_buffer.length := by
  intro fuel
  induction fuel with
  | zero => intro cur a st; exact Nat.le_refl _
  | succ k ih =>
    intro cur a st
    unfold clearRange
    split
    · exact Nat.le_refl _
    · exact Nat.le_trans (ih (seq_add cur 1) a (clearStep cur st))
        (clearStep_length cur st)

theorem process_ack_cleanup_buffer (st : SenderState) :
    (process_ack_cleanup st).send_buffer = st.send_buffer := by
  unfold process_ack_cleanup
  split <;> rfl

theorem process_ack_cleanup_expected (st : SenderState) :
    (process_ack_cleanup st).expected_ack = st.expected_ack := by
  unfold process_ack_cleanup
  split <;> rfl

theorem process_ack_length (a : Nat) (st : SenderState) :
    (process_ack a st).send_buffer.length ≤ st.send_buffer.length := by
  unfold process_ack
  split
  · rw [process_ack_cleanup_buffer]
    exact clearRange_length _ _ _ _
  · exact Nat.le_refl _

theorem dictInsert_length (k : Nat) (v : Frame) (d : List (Nat × Frame)) :
    (dictInsert k v d).length ≤ d.length + 1 := by
  unfold dictInsert
  split
  · rw [List.length_map]
    omega
  · rw [List.length_append]
    simp

theorem fillWindow_bound : ∀ (chunks : List (List Nat)) (st : SenderState),
    st.send_buffer.length ≤ WINDOW_SIZE →
    (fillWindow st chunks).send_buffer.length ≤ WINDOW_SIZE := by
  intro chunks
  induction chunks with
  | nil => intro st h; exact h
  | cons c rest ih =>
    intro st h
    unfold fillWindow
    split
    · apply ih
      calc (dictInsert st.sequence_number _ st.send_buffer).length
          ≤ st.send_buffer.length + 1 := dictInsert_length _ _ _
        _ ≤ WINDOW_SIZE := by omega
    · exact h

/-- C7: the sender never holds more than WINDOW_SIZE buffered frames — the
window-filling loop inserts a new frame only while the buffer length is below
WINDOW_SIZE, ACK processing only removes entries, and timeout retransmission
rewrites entries in place without adding any, so every operation preserves
the bound. -/
theorem window_size_bound (st : SenderState) (chunks : List (List Nat))
    (ack s : Nat) (h : st.send_buffer.length ≤ WINDOW_SIZE) :
    (fillWindow st chunks).send_buffer.length ≤ WINDOW_SIZE ∧
    (process_ack ack st).send_buffer.length ≤ st.send_buffer.length ∧
    (retransmit_from s st).2.send_buffer.length = st.send_buffer.length := by
  refine ⟨fillWindow_bound chunks st h, process_ack_length ack st, ?_⟩
  simp [retransmit_from]

theorem window_size_bound_witness :
    (fillWindow ⟨0, [], [], 0⟩ [[1], [2], [3], [4], [5]]).send_buffer.length ≤
      WINDOW_SIZE :=
  (window_size_bound ⟨0, [], [], 0⟩ [[1], [2], [3], [4], [5]] 0 0 (by decide)).1

theorem recompute_crc_frame_type (q : Frame) :
    (recompute_crc q).frame_type = q.frame_type := by
  unfold recompute_crc
  split
  · split <;> rfl
  · rfl

theorem recompute_crc_data (q : Frame) : (recompute_crc q).data = q.data := by
  unfold recompute_crc
  split
  · split <;> simp_all
  · rfl

theorem recompute_crc_spec (q : Frame) (d : List Nat)
    (ht : (recompute_crc q).frame_type = "DATA")
    (hd : (recompute_crc q).data = some d) (hne : d ≠ []) :
    (recompute_crc q).crc = some (calculate_crc8 d) := by
  rw [recompute_crc_frame_type] at ht
  rw [recompute_crc_data] at hd
  simp [recompute_crc, hd, ht, hne]

theorem timerInsert_mem_self (k : Nat) (t : List Nat) : k ∈ timerInsert k t := by
  unfold timerInsert
  split
  · assumption
  · simp

theorem timerInsert_mem_mono (k j : Nat) (t : List Nat) (h : k ∈ t) :
    k ∈ timerInsert j t := by
  unfold timerInsert
  split
  · exact h
  · simp [h]

theorem timerFold_mem : ∀ (l : List (Nat × Frame)) (t : List Nat) (k : Nat),
    (∃ p ∈ l, p.1 = k) ∨ k ∈ t →
    k ∈ l.foldl (fun t2 p => timerInsert p.1 t2) t := by
  intro l
  induction l with
  | nil =>
    intro t k h
    rcases h with ⟨p, hp, _⟩ | h
    · exact absurd hp (List.not_mem_nil p)
    · exact h
  | cons q rest ih =>
    intro t k h
    show k ∈ rest.foldl (fun t2 p => timerInsert p.1 t2) (timerInsert q.1 t)
    rcases h with ⟨p, hp, hk⟩ | h
    · rcases List.mem_cons.mp hp with hq | hrest
      · refine ih _ k (Or.inr ?_)
        rw [hq] at hk
        rw [← hk]
        exact timerInsert_mem_self q.1 t
      · exact ih _ k (Or.inl ⟨p, hrest, hk⟩)
    · exact ih _ k (Or.inr (timerInsert_mem_mono k q.1 t h))

/-- C5: on timeout for sequence number s, the frames handed to the send path
are exactly the buffered ones whose key satisfies seq_greater_equal against
s, each carried with a crc freshly computed over the payload it currently
holds; each such key has a (fresh) timer in the resulting state, and the
buffer's key sequence and the window base are unchanged. -/
theorem retransmit_from_spec (s : Nat) (st : SenderState) :
    (∀ f, f ∈ (retransmit_from s st).1 ↔
      ∃ p, p ∈ st.send_buffer ∧ seq_greater_equal p.1 s = true ∧
        f = recompute_crc p.2) ∧
    (∀ f, f ∈ (retransmit_from s st).1 → f.frame_type = "DATA" →
      ∀ d, f.data = some d → d ≠ [] → f.crc = some (calculate_crc8 d)) ∧
    (∀ p, p ∈ st.send_buffer → seq_greater_equal p.1 s = true →
      p.1 ∈ (retransmit_from s st).2.timers) ∧
    (retransmit_from s st).2.send_buffer.map Prod.fst =
      st.send_buffer.map Prod.fst ∧
    (retransmit_from s st).2.expected_ack = st.expected_ack := by
  refine ⟨?_, ?_, ?_, ?_, rfl⟩
  · intro f
    simp only [retransmit_from, List.mem_map, List.mem_filter]
    constructor
    · rintro ⟨p, ⟨hp, hsel⟩, heq⟩
      exact ⟨p, hp, hsel, heq.symm⟩
    · rintro ⟨p, hp, hsel, heq⟩
      exact ⟨p, ⟨hp, hsel⟩, heq.symm⟩
  · intro f hf ht d hd hne
    simp only [retransmit_from, List.mem_map, List.mem_filter] at hf
    obtain ⟨p, _, heq⟩ := hf
    rw [← heq] at ht hd ⊢
    exact recompute_crc_spec p.2 d ht hd hne
  · intro p hp hsel
    refine timerFold_mem _ st.timers p.1 (Or.inl ⟨p, ?_, rfl⟩)
    rw [List.mem_filter]
    exact ⟨hp, hsel⟩
  · show (st.send_buffer.map _).map Prod.fst = st.send_buffer.map Prod.fst
    rw [List.map_map]
    apply List.map_congr_left
    intro p _
    show Prod.fst (if seq_greater_equal p.1 s = true then (p.1, recompute_crc p.2) else p) = p.1
    split <;> rfl

theorem retransmit_from_spec_witness :
    (0 : Nat) ∈ (retransmit_from 0
      ⟨0, [(0, ⟨0, "DATA", some [65], some 192⟩)], [0], 1⟩).2.timers :=
  (retransmit_from_spec 0
      ⟨0, [(0, ⟨0, "DATA", some [65], some 192⟩)], [0], 1⟩).2.2.1
    (0, ⟨0, "DATA", some [65], some 192⟩) (by decide) (by decide)

theorem seq_ge_refl (a : Nat) : seq_greater_equal a a = true := by
  simp [seq_greater_equal]

theorem bufHas_true_iff (k : Nat) (d : List (Nat × Frame)) :
    bufHas k d = true ↔ ∃ p ∈ d, p.1 = k := by
  simp [bufHas, List.any_eq_true]

theorem bufHas_false_iff (k : Nat) (d : List (Nat × Frame)) :
    bufHas k d = false ↔ ∀ p ∈ d, p.1 ≠ k := by
  simp [bufHas, List.any_eq_false]

theorem stop_timer_expected (c : Nat) (st : SenderState) :
    (stop_timer c st).expected_ack = st.expected_ack := by
  unfold stop_timer
  split <;> rfl

theorem stop_timer_not_mem (c : Nat) (st : SenderState) :
    c ∉ (stop_timer c st).timers := by
  unfold stop_timer
  split
  · simp [List.mem_filter]
  · assumption

theorem stop_timer_timers_sub (c s : Nat) (st : SenderState)
    (h : s ∈ (stop_timer c st).timers) : s ∈ st.timers := by
  unfold stop_timer at h
  split at h
  · exact (List.mem_filter.1 h).1
  · exact h

theorem clearStep_expected (c : Nat) (st : SenderState) :
    (clearStep c st).expected_ack = st.expected_ack := by
  unfold clearStep
  split
  · exact stop_timer_expected c st
  · rfl

theorem clearStep_mem_buffer (c : Nat) (st : SenderState) (p : Nat × Frame)
    (h : p ∈ (clearStep c st).send_buffer) : p ∈ st.send_buffer := by
  unfold clearStep at h
  split at h
  · have h2 := (List.mem_filter.1 h).1
    rwa [stop_timer_buffer] at h2
  · exact h

theorem clearStep_removes (c : Nat) (st : SenderState)
    (h : bufHas c st.send_buffer = true) :
    bufHas c (clearStep c st).send_buffer = false ∧
    c ∉ (clearStep c st).timers := by
  unfold clearStep
  rw [if_pos h]
  refine ⟨?_, stop_timer_not_mem c st⟩
  rw [bufHas_false_iff]
  intro p hp
  have h2 := (List.mem_filter.1 hp).2
  simpa using h2

theorem clearStep_bufHas_other (c s : Nat) (st : SenderState) (hne : s ≠ c) :
    bufHas s (clearStep c st).send_buffer = bufHas s st.send_buffer := by
  unfold clearStep
  split
  · show bufHas s (dictDelete c (stop_timer c st).send_buffer) = _
    rw [stop_timer_buffer]
    cases hb : bufHas s st.send_buffer with
    | false =>
      rw [bufHas_false_iff] at hb ⊢
      intro p hp
      exact hb p (List.mem_filter.1 hp).1
    | true =>
      rw [bufHas_true_iff] at hb ⊢
      obtain ⟨p, hp, hps⟩ := hb
      refine ⟨p, List.mem_filter.2 ⟨hp, ?_⟩, hps⟩
      simp [dictDelete, hps, hne]
  · rfl

theorem clearStep_absent (c s : Nat) (st : SenderState)
    (h1 : bufHas s st.send_buffer = false) (h2 : s ∉ st.timers) :
    bufHas s (clearStep c st).send_buffer = false ∧
    s ∉ (clearStep c st).timers := by
  unfold clearStep
  split
  · constructor
    · show bufHas s (dictDelete c (stop_timer c st).send_buffer) = false
      rw [stop_timer_buffer, bufHas_false_iff]
      rw [bufHas_false_iff] at h1
      intro p hp
      exact h1 p (List.mem_filter.1 hp).1
    · show s ∉ (stop_timer c st).timers
      intro hmem
      exact h2 (stop_timer_timers_sub c s st hmem)
  · exact ⟨h1, h2⟩

theorem clearRange_expected : ∀ (fuel cur a : Nat) (st : SenderState),
    (clearRange fuel cur a st).expected_ack = st.expected_ack := by
  intro fuel
  induction fuel with
  | zero => intro cur a st; rfl
  | succ k ih =>
    intro cur a st
    unfold clearRange
    split
    · rfl
    · rw [ih (seq_add cur 1) a (clearStep cur st), clearStep_expected]

theorem clearRange_mem_buffer : ∀ (fuel cur a : Nat) (st : SenderState)
    (p : Nat × Frame), p ∈ (clearRange fuel cur a st).send_buffer →
    p ∈ st.send_buffer := by
  intro fuel
  induction fuel with
  | zero => intro cur a st p h; exact h
  | succ k ih =>
    intro cur a st p h
    unfold clearRange at h
    split at h
    · exact h
    · exact clearStep_mem_buffer cur st p (ih (seq_add cur 1) a (clearStep cur st) p h)

theorem clearRange_absent : ∀ (fuel cur a s : Nat) (st : SenderState),
    bufHas s st.send_buffer = false → s ∉ st.timers →
    bufHas s (clearRange fuel cur a st).send_buffer = false ∧
    s ∉ (clearRange fuel cur a st).timers := by
  intro fuel
  induction fuel with
  | zero => intro cur a s st h1 h2; exact ⟨h1, h2⟩
  | succ k ih =>
    intro cur a s st h1 h2
    unfold clearRange
    split
    · exact ⟨h1, h2⟩
    · obtain ⟨h3, h4⟩ := clearStep_absent cur s st h1 h2
      exact ih (seq_add cur 1) a s (clearStep cur st) h3 h4

theorem clearRange_removes : ∀ (fuel cur a s : Nat) (st : SenderState),
    s ∈ seqIntervalAux fuel cur a → bufHas s st.send_buffer = true →
    bufHas s (clearRange fuel cur a st).send_buffer = false ∧
    s ∉ (clearRange fuel cur a st).timers := by
  intro fuel
  induction fuel with
  | zero => intro cur a s st hmem; exact absurd hmem (List.not_mem_nil s)
  | succ k ih =>
    intro cur a s st hmem hbuf
    by_cases hca : cur = a
    · rw [seqIntervalAux, if_pos hca] at hmem
      exact absurd hmem (List.not_mem_nil s)
    · rw [seqIntervalAux, if_neg hca] at hmem
      show bufHas s (clearRange _ _ _ _).send_buffer = false ∧ _
      rw [clearRange, if_neg hca]
      by_cases hsc : s = cur
      · subst hsc
        obtain ⟨h3, h4⟩ := clearStep_removes s st hbuf
        exact clearRange_absent k (seq_add s 1) a s (clearStep s st) h3 h4
      · rcases List.mem_cons.mp hmem with hcur | htail
        · exact absurd hcur hsc
        · have hb2 : bufHas s (clearStep cur st).send_buffer = true := by
            rw [clearStep_bufHas_other cur s st hsc]
            exact hbuf
          exact ih (seq_add cur 1) a s (clearStep cur st) htail hb2

theorem process_ack_cleanup_timers_sub (s : Nat) (st : SenderState)
    (h : s ∈ (process_ack_cleanup st).timers) : s ∈ st.timers := by
  unfold process_ack_cleanup at h
  split at h
  · exact absurd h (List.not_mem_nil s)
  · exact h

theorem seqDist_mem_interval : ∀ a, a < MAX_SEQ_NUM + 1 →
    ∀ b, b < MAX_SEQ_NUM + 1 → ∀ s, s < MAX_SEQ_NUM + 1 →
    (seqDist a s < seqDist a b ↔ s ∈ seqIntervalAux (MAX_SEQ_NUM + 1) a b) := by
  decide

/-- C1: when the sender processes an ACK numbered ack inside the critical
section, forward progress (seq_greater_equal holding and ack different from
the base) removes from send_buffer every sequence number of the wraparound
interval [expected_ack, ack) that is present there, leaves none of them with
an active timer, and sets expected_ack to ack; any other ACK leaves the
sender state entirely unchanged.  Moreover every delivered ACK keeps the new
base greater-or-equal (in window order) to the old one — the base never moves
backward — and never adds buffer entries, so a removed frame's residue can
never be removed twice. -/
theorem ack_handler_spec (st : SenderState) (ack : Nat)
    (hack : ack ≤ MAX_SEQ_NUM) (hexp : st.expected_ack ≤ MAX_SEQ_NUM) :
    (seq_greater_equal ack st.expected_ack = true → ack ≠ st.expected_ack →
      (process_ack ack st).expected_ack = ack ∧
      (∀ s, s ≤ MAX_SEQ_NUM →
        seqDist st.expected_ack s < seqDist st.expected_ack ack →
        bufHas s st.send_buffer = true →
        bufHas s (process_ack ack st).send_buffer = false ∧
        s ∉ (process_ack ack st).timers)) ∧
    (seq_greater_equal ack st.expected_ack = false ∨ ack = st.expected_ack →
      process_ack ack st = st) ∧
    seq_greater_equal (process_ack ack st).expected_ack st.expected_ack = true ∧
    (∀ p, p ∈ (process_ack ack st).send_buffer → p ∈ st.send_buffer) := by
  by_cases hcond :
      (seq_greater_equal ack st.expected_ack && ack != st.expected_ack) = true
  · have hpa : process_ack ack st = process_ack_cleanup
        { clearRange (MAX_SEQ_NUM + 1) st.expected_ack ack st with
          expected_ack := ack } := by
      unfold process_ack
      rw [if_pos hcond]
    rw [Bool.and_eq_true] at hcond
    obtain ⟨hge, hbne⟩ := hcond
    have hexpeq : (process_ack ack st).expected_ack = ack := by
      rw [hpa, process_ack_cleanup_expected]
    refine ⟨fun _ _ => ⟨hexpeq, ?_⟩, ?_, ?_, ?_⟩
    · intro s hs hdist hbuf
      have hmem : s ∈ seqIntervalAux (MAX_SEQ_NUM + 1) st.expected_ack ack :=
        (seqDist_mem_interval st.expected_ack (Nat.lt_succ_of_le hexp) ack
          (Nat.lt_succ_of_le hack) s (Nat.lt_succ_of_le hs)).mp hdist
      obtain ⟨h3, h4⟩ :=
        clearRange_removes (MAX_SEQ_NUM + 1) st.expected_ack ack s st hmem hbuf
      constructor
      · rw [hpa, process_ack_cleanup_buffer]
        exact h3
      · rw [hpa]
        intro hmem2
        exact h4 (process_ack_cleanup_timers_sub s
          { clearRange (MAX_SEQ_NUM + 1) st.expected_ack ack st with
            expected_ack := ack } hmem2)
    · intro h2
      rcases h2 with h2 | h2
      · rw [hge] at h2
        exact absurd h2 (by simp)
      · rw [bne_iff_ne] at hbne
        exact absurd h2 hbne
    · rw [hexpeq]
      exact hge
    · intro p hp
      rw [hpa, process_ack_cleanup_buffer] at hp
      exact clearRange_mem_buffer (MAX_SEQ_NUM + 1) st.expected_ack ack st p hp
  · have hpa : process_ack ack st = st := by
      unfold process_ack
      rw [if_neg hcond]
    refine ⟨?_, fun _ => hpa, ?_, ?_⟩
    · intro hge hne
      refine absurd ?_ hcond
      rw [Bool.and_eq_true, bne_iff_ne]
      exact ⟨hge, hne⟩
    · rw [hpa]
      exact seq_ge_refl st.expected_ack
    · intro p hp
      rwa [hpa] at hp

theorem ack_handler_spec_witness :
    bufHas 0 (process_ack 1
      ⟨0, [(0, ⟨0, "DATA", some [65], some 192⟩)], [0], 1⟩).send_buffer = false :=
  (((ack_handler_spec ⟨0, [(0, ⟨0, "DATA", some [65], some 192⟩)], [0], 1⟩ 1
      (by decide) (by decide)).1 (by decide) (by decide)).2 0 (by decide)
      (by decide) (by decide)).1

end GBN
